import Mathlib

/-!
Verification development for the DegNorm `GeneNMFOA` engine
(`degnorm/nmf.py`).

Embedding conventions:
* numpy float64 values are modelled as exact rationals (`ℚ`); the float
  literals `0.1`, `0.3`, `1e-5` become the exact rationals `1/10`, `3/10`,
  `1/100000`.
* a coverage matrix (samples x positions) is a `List (List ℚ)`: the outer
  list runs over sample rows.
* `scipy.sparse.linalg.svds(x, k=1)` is external library code; it is
  modelled as an oracle parameter `Oracle` producing the triple
  `(u, s, v)` of the truncated decomposition.  Every theorem quantifies
  over the oracle (or fixes a concrete one for concrete runs).
* `c = np.sqrt(self.nmf_iter)` is an irrational float in general; the
  constant is carried as a configuration field `c`.  Concrete runs use
  `nmf_iter = 1`, where `c = 1` exactly.
* `np.linalg.norm` ratios inside `baseline_selection` are compared only
  through `np.nanargmax`; the model compares the squared norms, which is
  order-isomorphic (sqrt is strictly monotone on nonnegatives, and a zero
  denominator is mapped to 0 in both versions), hence selects the same
  bin index.
* Python exceptions are modelled with `Except String`.
-/

/-- Rows-outer matrix of rationals (samples x positions). -/
abbrev Mat := List (List ℚ)

/-- Number of columns of a rows-outer matrix (numpy arrays are
rectangular; the model reads the first row's length). -/
def ncols (M : Mat) : ℕ := (M.headD []).length

/-- Maximum of a list of rationals; numpy raises on an empty reduction,
the model returns the junk value 0 there (no claim touches that case). -/
def maxQ : List ℚ → ℚ
  | [] => 0
  | x :: xs => xs.foldl max x

/-- Maximum of column `j` across sample rows (`x.max(axis=0)` at `j`). -/
def colMaxQ (M : Mat) (j : ℕ) : ℚ := maxQ (M.map (fun r => r.getD j 0))

/-- Global maximum of the matrix (`x.max()`). -/
def matMaxQ (M : Mat) : ℚ := maxQ (M.map maxQ)

/-- Elementwise difference of same-shape matrices. -/
def matSub (A B : Mat) : Mat := List.zipWith (List.zipWith (fun a b => a - b)) A B

/-- Elementwise sum of same-shape matrices. -/
def matAdd (A B : Mat) : Mat := List.zipWith (List.zipWith (fun a b => a + b)) A B

/-- Elementwise absolute value (`np.abs`). -/
def matAbs (A : Mat) : Mat := A.map (fun r => r.map (fun v => |v|))

/-- Outer product `K.dot(E)` of a samples-vector and a positions-vector. -/
def outer (K E : List ℚ) : Mat := K.map (fun a => E.map (fun b => a * b))

/-- Shape-respecting over-approximation clamp: `est[est < x] = x[est < x]`.
The result is read over the shape of `x` (numpy requires equal shapes). -/
def clampGe (est x : Mat) : Mat :=
  (List.range x.length).map (fun i =>
    (List.range ((x.getD i []).length)).map (fun j =>
      let e := (est.getD i []).getD j 0
      let f := (x.getD i []).getD j 0
      if e < f then f else e))

/-- Elementwise `≤` over the shape of `A` (entries read with defaults). -/
def matLe (A B : Mat) : Prop :=
  ∀ i < A.length, ∀ j < (A.getD i []).length,
    (A.getD i []).getD j 0 ≤ (B.getD i []).getD j 0

instance (A B : Mat) : Decidable (matLe A B) := by
  unfold matLe; infer_instance

/-- Model of `scipy.sparse.linalg.svds(x, k=1)`: returns `(u, s, v)` with
`u` a samples-vector, `s` the singular value, `v` a positions-vector. -/
abbrev Oracle := Mat → List ℚ × ℚ × List ℚ

/-- Configuration of a `GeneNMFOA` object (the `__init__` fields the
claims need); `c` carries the value of `np.sqrt(nmf_iter)`. -/
structure Cfg where
  downsample_rate : ℕ
  min_high_coverage : ℕ
  nmf_iter : ℕ
  bins : ℕ
  c : ℚ
deriving Repr, DecidableEq

/-- Value of `self.min_bins = np.ceil(self.bins * 0.3)` (exact rational
ceiling of `3 * bins / 10`). -/
def minBins (bins : ℕ) : ℕ := (3 * bins + 9) / 10

/-- Embeds `GeneNMFOA.rank_one_approx`: `u, s, v = svds(x, k=1);
return u*s, v`. -/
def rank_one_approx (oracle : Oracle) (x : Mat) : List ℚ × List ℚ :=
  let usv := oracle x
  (usv.1.map (fun a => a * usv.2.1), usv.2.2)

/-- Zero matrix of the same shape as `x` (`np.zeros(shape=x.shape)`). -/
def zerosLike (x : Mat) : Mat := x.map (fun r => r.map (fun _ => 0))

/-- One pass of the `for _ in range(self.nmf_iter)` loop of `GeneNMFOA.nmf`,
iterated `n` times; state is `(est, lmbda, (K, E))`. -/
def nmfLoop (oracle : Oracle) (c : ℚ) (x : Mat) :
    ℕ → Mat → Mat → List ℚ × List ℚ → Mat × (List ℚ × List ℚ)
  | 0, est, _, KE => (est, KE)
  | n + 1, est, lmbda, _ =>
    let res := matSub est x
    let lmbda1 := List.zipWith (List.zipWith (fun l r =>
      let v := l - r * (1 / c); if v < 0 then 0 else v)) lmbda res
    let KE1 := rank_one_approx oracle (matAdd est lmbda1)
    nmfLoop oracle c x n (outer KE1.1 KE1.2) lmbda1 KE1

/-- Embeds `GeneNMFOA.nmf` with `factors=True`: returns
`(np.abs(K), np.abs(E))` after the fixed number of iterations. -/
def nmf_factors (oracle : Oracle) (cfg : Cfg) (x : Mat) : List ℚ × List ℚ :=
  let KE0 := rank_one_approx oracle x
  let out := nmfLoop oracle cfg.c x cfg.nmf_iter (outer KE0.1 KE0.2) (zerosLike x) KE0
  (out.2.1.map (fun v => |v|), out.2.2.map (fun v => |v|))

/-- Embeds `GeneNMFOA.nmf` with `factors=False`: the combined estimate
after the quality-control clamp `est[est < x] = x[est < x]`. -/
def nmf_est (oracle : Oracle) (cfg : Cfg) (x : Mat) : Mat :=
  let KE0 := rank_one_approx oracle x
  let out := nmfLoop oracle cfg.c x cfg.nmf_iter (outer KE0.1 KE0.2) (zerosLike x) KE0
  clampGe out.1 x

/-- Reading an entry of a `List.range`-map at an in-range index. -/
theorem getD_map_range {α : Type} (g : ℕ → α) (d : α) {n i : ℕ} (h : i < n) :
    ((List.range n).map g).getD i d = g i := by
  rw [List.getD_eq_getElem?_getD, List.getElem?_map, List.getElem?_range h]
  rfl

/-- The clamp dominates its second argument over that argument's shape. -/
theorem matLe_clampGe (est x : Mat) : matLe x (clampGe est x) := by
  intro i hi j hj
  unfold clampGe
  rw [getD_map_range _ _ hi, getD_map_range _ _ hj]
  dsimp only
  split
  · exact le_refl _
  · exact le_of_not_lt (by assumption)

/-- Chunker worker: take `c` elements at a time; `fuel` bounds the
recursion and is always instantiated with the list length. -/
def chunksAux {α : Type} (c : ℕ) : ℕ → List α → List (List α)
  | _, [] => []
  | 0, _ :: _ => []
  | fuel + 1, y :: ys => (y :: ys).take c :: chunksAux c fuel ((y :: ys).drop c)

/-- Modelled from the spec: `degnorm.utils.split_into_chunks` (the utils
module is not under src/).  Per the spec it partitions a list into a fixed
number of contiguous chunks of near-equal size (chunk size
`ceil(len / n)`), as used both for bins and for the dispatcher. -/
def split_into_chunks {α : Type} (xs : List α) (n : ℕ) : List (List α) :=
  chunksAux ((xs.length + n - 1) / n) xs.length xs

/-- Insert into a sorted duplicate-free list keeping it sorted and
duplicate free (helper for the `np.unique` model). -/
def insertUniq (x : ℤ) : List ℤ → List ℤ
  | [] => [x]
  | y :: ys => if x < y then x :: y :: ys
               else if x = y then y :: ys
               else y :: insertUniq x ys

/-- Model of `np.unique`: sorted list of the distinct elements. -/
def sortedUnique (l : List ℤ) : List ℤ := l.foldr insertUniq []

/-- Last element with default, written through `getD` as Python's
`b[-1] = b[len(b)-1]`. -/
def lastElemD (l : List ℤ) (d : ℤ) : ℤ := l.getD (l.length - 1) d

/-- In-place loop `for bin_idx in range(dropped_bin, len(bins)):
bins[bin_idx] = [idx - delta for idx in bins[bin_idx]]`. -/
def shiftFrom (delta : ℤ) : ℕ → List (List ℤ) → List (List ℤ)
  | _, [] => []
  | 0, b :: bs => b.map (fun idx => idx - delta) :: shiftFrom delta 0 bs
  | d + 1, b :: bs => b :: shiftFrom delta d bs

/-- Embeds `GeneNMFOA.shift_bins` (bins hold Python ints, hence `ℤ`). -/
def shift_bins (bins : List (List ℤ)) (dropped_bin : ℕ) : List (List ℤ) :=
  if dropped_bin = bins.length ∨ bins.length = 1 then bins
  else
    let delta : ℤ :=
      if dropped_bin = 0 then (bins.getD 0 []).getD 0 0
      else (bins.getD dropped_bin []).getD 0 0
             - lastElemD (bins.getD (dropped_bin - 1) []) 0 - 1
    shiftFrom delta dropped_bin bins

/-- Embeds `GeneNMFOA.get_high_coverage_idx`:
`np.where(x.max(axis=0) > 0.1 * x.max())[0]`. -/
def get_high_coverage_idx (F : Mat) : List ℕ :=
  (List.range (ncols F)).filter (fun j => colMaxQ F j > (1 / 10) * matMaxQ F)

/-- The two sequential masked assignments
`rho[rho < 0] = 0.` and `rho[rho >= 1] = 1. - 1e-5` as one map. -/
def clip01 (r : ℚ) : ℚ := if r < 0 then 0 else if 1 ≤ r then 1 - 1 / 100000 else r

/-- DI vector `1 - F.sum(axis=1) / (KE.sum(axis=1) + 1)` (pre-clip). -/
def diVec (F KE : Mat) : List ℚ :=
  List.zipWith (fun fr ker => 1 - fr.sum / (ker.sum + 1)) F KE

/-- Clip a DI vector (quality control lines of `baseline_selection`). -/
def clipRhoVec (v : List ℚ) : List ℚ := v.map clip01

/-- Column selection `M[:, idx]` with natural-number indices. -/
def selectCols (M : Mat) (idx : List ℕ) : Mat :=
  M.map (fun row => idx.map (fun j => row.getD j 0))

/-- Column selection `M[:, idx]` with integer indices (bin contents);
the indices pass through `Int.toNat` first (Python ints index arrays). -/
def selectColsZ (M : Mat) (idx : List ℤ) : Mat :=
  M.map (fun row => (idx.map Int.toNat).map (fun j => row.getD j 0))

/-- Squared Frobenius norm of the columns `seg` of `M`
(order-isomorphic stand-in for `np.linalg.norm(M[:, seg])`). -/
def sumSqCols (M : Mat) (seg : List ℤ) : ℚ :=
  ((seg.map Int.toNat).map (fun j => (M.map (fun row => row.getD j 0 ^ 2)).sum)).sum

/-- First index attaining the maximum (`np.nanargmax`; no NaN in `ℚ`). -/
def argmaxGo (bestI : ℕ) (bestV : ℚ) (i : ℕ) : List ℚ → ℕ
  | [] => bestI
  | v :: vs => if bestV < v then argmaxGo i v (i + 1) vs else argmaxGo bestI bestV (i + 1) vs

/-- First index of the maximum of a list (0 on the empty list, which the
callers never pass: numpy raises there and the model errors earlier). -/
def argmaxFirst : List ℚ → ℕ
  | [] => 0
  | x :: xs => argmaxGo 0 x 1 xs

/-- Embeds `GeneNMFOA._systematic_sample` for the reachable branch
`take_every < n`; `rnd` models the `np.random.choice(take_every)` draw. -/
def systematic_sample (rnd n take_every : ℕ) : List ℕ :=
  let start := rnd % take_every
  (List.range ((n - start + take_every - 1) / take_every)).map
    (fun i => start + i * take_every)

/-- Embeds `GeneNMFOA.downsample_2d` (`rnd` models the random start). -/
def downsample_2d (rnd rate : ℕ) (x : Mat) (by_row : Bool) :
    Except String (Mat × List ℕ) :=
  let Li := if by_row then x.length else ncols x
  if rate = 1 then .ok (x, List.range Li)
  else if Li ≤ rate then .error "Cannot downsample at a rate < 1 / length(gene)"
  else
    let idx := systematic_sample rnd Li rate
    if by_row then .ok (idx.map (fun i => x.getD i []), idx)
    else .ok (selectCols x idx, idx)

/-- Model of `np.intersect1d` on natural-number index sets. -/
def intersect1d (a b : List ℕ) : List ℕ :=
  ((sortedUnique (a.map (fun i => (i : ℤ)))).filter
    (fun i => (b.map (fun j => (j : ℤ))).contains i)).map Int.toNat

/-- Loop state of the trimming loop of `baseline_selection`; `n_bins`
is the Python variable of that name, which is reassigned at the top of
the loop body (before the deletion) and is therefore stale by one
iteration when the guard is re-evaluated. -/
structure TrimState where
  bin_segs : List (List ℤ)
  F_bin : Mat
  KE_bin : Mat
  rho_vec : List ℚ
  n_bins : ℕ
deriving Repr, DecidableEq

/-- One body of the trimming while-loop of `baseline_selection`
(compute residual ratios per bin, drop the worst bin, re-collapse
indices, reindex bins, shrink the matrix, refit, recompute DI). -/
def trimStep (oracle : Oracle) (cfg : Cfg) (st : TrimState) : Except String TrimState :=
  match st.bin_segs with
  | [] => .error "attempt to get argmax of an empty sequence"
  | _ :: _ =>
    let n_bins := st.bin_segs.length
    let ss_r := st.bin_segs.map (fun seg => sumSqCols (matSub st.KE_bin st.F_bin) seg)
    let ss_f := st.bin_segs.map (fun seg => sumSqCols st.F_bin seg)
    let res_norms := List.zipWith (fun r f => if f = 0 then 0 else r / f) ss_r ss_f
    let drop_idx := argmaxFirst res_norms
    let segs1 := st.bin_segs.eraseIdx drop_idx
    let keep_idx := sortedUnique segs1.flatten
    let segs2 := shift_bins segs1 drop_idx
    let F1 := selectColsZ st.F_bin keep_idx
    let KE1 := nmf_est oracle cfg F1
    .ok { bin_segs := segs2, F_bin := F1, KE_bin := KE1,
          rho_vec := clipRhoVec (diVec F1 KE1), n_bins := n_bins }

/-- The trimming while-loop; the guard reads the (stale) Python variable
`n_bins` from the state.  `fuel` is always called with
`bin_segs.length + 1`, which bounds the number of iterations since every
iteration deletes one bin. -/
def trimLoop (oracle : Oracle) (cfg : Cfg) : ℕ → TrimState → Except String TrimState
  | 0, _ => .error "out of fuel"
  | fuel + 1, st =>
    if st.n_bins > minBins cfg.bins ∧ maxQ st.rho_vec > 1 / 10 then
      match trimStep oracle cfg st with
      | .error e => .error e
      | .ok st1 => trimLoop oracle cfg fuel st1
    else .ok st

/-- Overhead part of `baseline_selection` (downsampling, high-coverage
filtering, early exits, initial factorization, binning, initial DI).
Returns `none` for the early exits that return `(F, ran=False)`,
otherwise the initial trim state together with the initial `(K, E)`. -/
def baselinePrep (oracle : Oracle) (rnd : ℕ) (cfg : Cfg) (F : Mat) :
    Except String (Option (TrimState × List ℚ × List ℚ)) :=
  let hi0 := get_high_coverage_idx F
  if cfg.downsample_rate > 1 then
    match downsample_2d rnd cfg.downsample_rate F false with
    | .error e => .error e
    | .ok ds =>
      let hi := intersect1d ds.2 hi0
      if hi.length ≤ 1 then .ok none
      else .ok (some (baselineInit oracle cfg F hi))
  else
    if hi0.length < cfg.min_high_coverage then .ok none
    else .ok (some (baselineInit oracle cfg F hi0))
where
  baselineInit (oracle : Oracle) (cfg : Cfg) (F : Mat) (hi : List ℕ) :
      TrimState × List ℚ × List ℚ :=
    let F_bin := selectCols F hi
    let KE := nmf_factors oracle cfg F_bin
    let KE_bin := matAbs (outer KE.1 KE.2)
    let bin_segs := split_into_chunks ((List.range (ncols F_bin)).map (fun i => (i : ℤ))) cfg.bins
    let rho := clipRhoVec (diVec F_bin KE_bin)
    (⟨bin_segs, F_bin, KE_bin, rho, bin_segs.length⟩, KE)

/-- Embeds the K-flooring quality control of `baseline_selection`:
`K[K < 1.e-5] = np.min(K[K >= 1.e-5])`; `none` models the `ValueError`
numpy raises when `K[K >= 1e-5]` is empty. -/
def floorK (K : List ℚ) : Option (List ℚ) :=
  let big := K.filter (fun v => ¬ v < 1 / 100000)
  match big.min? with
  | none => none
  | some m => some (K.map (fun v => if v < 1 / 100000 then m else v))

/-- Embeds `GeneNMFOA.baseline_selection`; `rnd` models the random draw
used by the optional downsampling step.  The `np.isnan` guard on `E`
cannot fire over `ℚ` and is omitted. -/
def baseline_selection (oracle : Oracle) (rnd : ℕ) (cfg : Cfg) (F : Mat) :
    Except String (Mat × Bool) :=
  match baselinePrep oracle rnd cfg F with
  | .error e => .error e
  | .ok none => .ok (F, false)
  | .ok (some (st0, K0, E0)) =>
    match trimLoop oracle cfg (st0.bin_segs.length + 1) st0 with
    | .error e => .error e
    | .ok st =>
      let KE := if maxQ st.rho_vec < 1 / 10 then nmf_factors oracle cfg st.F_bin else (K0, E0)
      match floorK KE.1 with
      | none => .error "zero-size array to reduction operation minimum"
      | some Kf =>
        let Ef := (List.range (ncols F)).map (fun j =>
          maxQ (List.zipWith (fun (row : List ℚ) kv => row.getD j 0 / kv) F Kf))
        .ok (clampGe (matAbs (outer Kf Ef)) F, true)

/-- Reflexivity of the elementwise order. -/
theorem matLe_refl (A : Mat) : matLe A A := fun _ _ _ _ => le_refl _

/-- Concrete rank-one oracle used for concrete runs: `u` and `v` all
ones, `s = 1` (a legitimate instantiation of the external `svds`). -/
def unitOracle : Oracle := fun x => (x.map (fun _ => 1), 1, (x.headD []).map (fun _ => 1))

/-- Concrete degenerate oracle (all factors zero); with it the clamped
`nmf` estimate of a nonnegative matrix is the matrix itself, which keeps
concrete trim-loop traces small. -/
def zeroOracle : Oracle := fun x => (x.map (fun _ => 0), 0, (x.headD []).map (fun _ => 0))

/-- C1: over-approximation guarantee.  For every svds oracle and every
nonnegative input matrix, the combined estimate returned by
`nmf(x)` (factors=False) dominates `x` elementwise, and whenever
`baseline_selection(F)` returns normally its estimate dominates `F`
elementwise (both early-exit and full paths). -/
theorem nmf_and_baseline_selection_over_approximate
    (oracle : Oracle) (rnd : ℕ) (cfg : Cfg) (x F : Mat)
    (_hx : ∀ i < x.length, ∀ j < (x.getD i []).length, 0 ≤ (x.getD i []).getD j 0)
    (est : Mat) (ran : Bool)
    (hrun : baseline_selection oracle rnd cfg F = .ok (est, ran)) :
    matLe x (nmf_est oracle cfg x) ∧ matLe F est := by
  refine ⟨matLe_clampGe _ _, ?_⟩
  unfold baseline_selection at hrun
  cases hprep : baselinePrep oracle rnd cfg F with
  | error e => rw [hprep] at hrun; exact absurd hrun (by simp)
  | ok o =>
    rw [hprep] at hrun
    cases o with
    | none =>
      simp only [Except.ok.injEq, Prod.mk.injEq] at hrun
      rw [← hrun.1]
      exact matLe_refl F
    | some v =>
      obtain ⟨st0, K0, E0⟩ := v
      dsimp only at hrun
      cases htrim : trimLoop oracle cfg (st0.bin_segs.length + 1) st0 with
      | error e => rw [htrim] at hrun; exact absurd hrun (by simp)
      | ok st =>
        rw [htrim] at hrun
        dsimp only at hrun
        cases hfl : floorK (if maxQ st.rho_vec < 1 / 10 then
            nmf_factors oracle cfg st.F_bin else (K0, E0)).1 with
        | none => rw [hfl] at hrun; exact absurd hrun (by simp)
        | some Kf =>
          rw [hfl] at hrun
          simp only [Except.ok.injEq, Prod.mk.injEq] at hrun
          rw [← hrun.1]
          exact matLe_clampGe _ _

/-- Witness for C1 at a concrete successful run. -/
theorem nmf_and_baseline_selection_over_approximate_witness :
    matLe [[(1 : ℚ)], [0]]
        (nmf_est unitOracle ⟨1, 1, 1, 20, 1⟩ [[(1 : ℚ)], [0]]) ∧
      matLe [[(1 : ℚ)], [0]] [[(1 : ℚ)], [1]] :=
  nmf_and_baseline_selection_over_approximate unitOracle 0 ⟨1, 1, 1, 20, 1⟩
    [[(1 : ℚ)], [0]] [[(1 : ℚ)], [0]] (by decide) [[(1 : ℚ)], [1]] true (by
      norm_num [baseline_selection, baselinePrep, baselinePrep.baselineInit,
        get_high_coverage_idx, ncols, colMaxQ, matMaxQ, maxQ, selectCols, nmf_factors,
        nmf_est, rank_one_approx, unitOracle, nmfLoop, outer, zerosLike, matAdd, matSub,
        matAbs, split_into_chunks, chunksAux, diVec, clipRhoVec, clip01, trimLoop,
        trimStep, minBins, floorK, clampGe, lastElemD, List.range_succ, List.filter])

/-- Insertion into a sorted list of rationals (helper for `np.median`). -/
def insertSorted (x : ℚ) : List ℚ → List ℚ
  | [] => [x]
  | y :: ys => if x ≤ y then x :: y :: ys else y :: insertSorted x ys

/-- Insertion sort of a list of rationals. -/
def sortQ (l : List ℚ) : List ℚ := l.foldr insertSorted []

/-- Model of `np.median`: middle of the sorted list, or the mean of the
two middles for even length (junk 0 on the empty list, where numpy
returns NaN; no claim touches that case). -/
def medianQ (l : List ℚ) : ℚ :=
  let s := sortQ l
  if s.length = 0 then 0
  else if s.length % 2 = 1 then s.getD (s.length / 2) 0
  else (s.getD (s.length / 2 - 1) 0 + s.getD (s.length / 2) 0) / 2

/-- Embeds `GeneNMFOA.compute_scale_factors`.  `cov_mats` and `x` are
the object state `self.cov_mats` (through `self.cov_sums`) and `self.x`;
returns `(self.rho, self.scale_factors)`. -/
def compute_scale_factors (cov_mats : List Mat) (x : Mat) (estimates : List Mat) :
    Mat × List ℚ :=
  let est_sums := estimates.map (fun M => M.map List.sum)
  let cov_sums := cov_mats.map (fun M => M.map List.sum)
  let rho := List.zipWith (List.zipWith (fun cv ev => clip01 (1 - cv / (ev + 1)))) cov_sums est_sums
  let scaled := List.zipWith (List.zipWith (fun xv rv => xv / (1 - rv))) x rho
  let colsums := (List.range (ncols scaled)).map (fun j => (scaled.map (fun r => r.getD j 0)).sum)
  (rho, colsums.map (fun s => s / medianQ colsums))

/-- Every value of the two-step DI clip lies in `[0, 1)`; note that it
is NOT bounded by `1 - 1e-5`: the upper clip replaces only values `≥ 1`. -/
theorem clip01_bounds (r : ℚ) : 0 ≤ clip01 r ∧ clip01 r < 1 := by
  unfold clip01
  split
  · norm_num
  · split
    · norm_num
    · constructor
      · linarith [not_lt.mp (by assumption : ¬ r < 0)]
      · exact lt_of_not_le (by assumption)

/-- Member of a `zipWith` is an image of the function. -/
theorem exists_of_mem_zipWith {α β γ : Type} (f : α → β → γ) :
    ∀ (l1 : List α) (l2 : List β) (c : γ), c ∈ List.zipWith f l1 l2 → ∃ a b, c = f a b := by
  intro l1
  induction l1 with
  | nil => intro l2 c hc; simp at hc
  | cons a l1 ih =>
    intro l2 c hc
    cases l2 with
    | nil => simp at hc
    | cons b l2 =>
      simp only [List.zipWith_cons_cons, List.mem_cons] at hc
      rcases hc with h | h
      · exact ⟨a, b, h⟩
      · exact ih l2 c h

/-- A `getD` read is either the default or a member of the list. -/
theorem getD_default_or_mem {α : Type} (l : List α) (i : ℕ) (d : α) :
    l.getD i d = d ∨ l.getD i d ∈ l := by
  by_cases h : i < l.length
  · right
    rw [List.getD_eq_getElem l d h]
    exact List.getElem_mem h
  · left
    exact List.getD_eq_default l d (le_of_not_lt h)

/-- C2 (amended): after every recomputation, every DI cell lies in
`[0, 1)` — both the `rho` matrix of `compute_scale_factors` and a clipped
per-gene DI vector as recomputed in `baseline_selection`.  (The original
bound `≤ 1 - 1e-5` fails: the clip replaces only values `≥ 1`.) -/
theorem rho_cells_in_unit_interval (cov_mats : List Mat) (x : Mat) (estimates : List Mat)
    (_hest : ∀ M ∈ estimates, ∀ r ∈ M, ∀ v ∈ r, 0 ≤ v) (g i : ℕ) (w : List ℚ) :
    (0 ≤ (((compute_scale_factors cov_mats x estimates).1.getD g []).getD i 0) ∧
      (((compute_scale_factors cov_mats x estimates).1.getD g []).getD i 0) < 1) ∧
      ∀ r ∈ clipRhoVec w, 0 ≤ r ∧ r < 1 := by
  constructor
  · have key : ∀ (R : Mat), (∀ row ∈ R, ∀ v ∈ row, 0 ≤ v ∧ v < 1) →
        0 ≤ (R.getD g []).getD i 0 ∧ (R.getD g []).getD i 0 < 1 := by
      intro R hR
      rcases getD_default_or_mem (R.getD g []) i 0 with h | h
      · rw [h]; norm_num
      · rcases getD_default_or_mem R g [] with h2 | h2
        · rw [h2] at h; simp at h
        · exact hR _ h2 _ h
    apply key
    intro row hrow v hv
    unfold compute_scale_factors at hrow
    dsimp only at hrow
    rcases exists_of_mem_zipWith _ _ _ _ hrow with ⟨cs, es, hr⟩
    rw [hr] at hv
    rcases exists_of_mem_zipWith _ _ _ _ hv with ⟨cv, ev, hvv⟩
    rw [hvv]
    exact clip01_bounds _
  · intro r hr
    unfold clipRhoVec at hr
    rcases List.mem_map.mp hr with ⟨v, _, hv⟩
    rw [← hv]
    exact clip01_bounds v

/-- Witness for the amended C2 at a concrete recomputation. -/
theorem rho_cells_in_unit_interval_witness :
    (0 ≤ (((compute_scale_factors [[[(2 : ℚ)]]] [[1]] [[[3]]]).1.getD 0 []).getD 0 0) ∧
      (((compute_scale_factors [[[(2 : ℚ)]]] [[1]] [[[3]]]).1.getD 0 []).getD 0 0) < 1) ∧
      ∀ r ∈ clipRhoVec [(1 : ℚ)], 0 ≤ r ∧ r < 1 :=
  rho_cells_in_unit_interval [[[(2 : ℚ)]]] [[1]] [[[3]]]
    (by intro M hM r hr v hv; simp at hM; subst hM; simp at hr; subst hr; simp at hv; subst hv; norm_num)
    0 0 [(1 : ℚ)]

/-- Counterexample to C2 as stated: with raw coverage sum `1e-9` and a
(legitimately over-approximating) estimate sum `1e-9`, the recomputed DI
cell equals `10^9 / (10^9 + 1)`, which exceeds `1 - 1e-5` and is NOT
replaced by the clip (the clip fires only at values `≥ 1`). -/
theorem rho_cell_exceeds_claimed_bound :
    (compute_scale_factors [[[(1 / 1000000000 : ℚ)]]] [[1]] [[[(1 / 1000000000 : ℚ)]]]).1
        = [[(1000000000 / 1000000001 : ℚ)]] ∧
      (1 - 1 / 100000 : ℚ) < 1000000000 / 1000000001 := by
  constructor
  · norm_num [compute_scale_factors, clip01]
  · norm_num

/-- C3 (amended): in the non-downsampled case, a gene with fewer
high-coverage positions than `min_high_coverage` exits early from
`baseline_selection` with `ranFlag = false` and the unmodified input as
its estimate.  (A zero sample row by itself forces no early exit.) -/
theorem baseline_selection_low_coverage_early_exit
    (oracle : Oracle) (rnd : ℕ) (cfg : Cfg) (F : Mat)
    (hrate : cfg.downsample_rate ≤ 1)
    (hlow : (get_high_coverage_idx F).length < cfg.min_high_coverage) :
    baseline_selection oracle rnd cfg F = .ok (F, false) := by
  unfold baseline_selection baselinePrep
  rw [if_neg (by omega), if_pos hlow]

/-- Witness for the amended C3 at a concrete low-coverage gene. -/
theorem baseline_selection_low_coverage_early_exit_witness :
    baseline_selection unitOracle 0 ⟨1, 50, 1, 20, 1⟩ [[(1 : ℚ), 0], [0, 0]]
      = .ok ([[(1 : ℚ), 0], [0, 0]], false) :=
  baseline_selection_low_coverage_early_exit unitOracle 0 ⟨1, 50, 1, 20, 1⟩
    [[(1 : ℚ), 0], [0, 0]] (by decide)
    (by norm_num [get_high_coverage_idx, ncols, colMaxQ, matMaxQ, maxQ, List.range_succ])

set_option maxHeartbeats 2000000 in
/-- Counterexample to C3 as stated: the matrix `[[1], [0]]` has sample
row 1 summing to zero, yet `baseline_selection` does not exit early: it
returns `ranFlag = true` and an estimate different from the input
(there are enough high-coverage positions, and no zero-row test exists
in the code). -/
theorem baseline_selection_zero_row_still_runs :
    baseline_selection unitOracle 0 ⟨1, 1, 1, 20, 1⟩ [[(1 : ℚ)], [0]]
        = .ok ([[(1 : ℚ)], [1]], true) ∧
      (([[(1 : ℚ)], [0]] : Mat).getD 1 []).sum = 0 ∧
      ([[(1 : ℚ)], [1]] : Mat) ≠ [[(1 : ℚ)], [0]] := by
  refine ⟨?_, by norm_num, by simp⟩
  norm_num [baseline_selection, baselinePrep, baselinePrep.baselineInit,
    get_high_coverage_idx, ncols, colMaxQ, matMaxQ, maxQ, selectCols, nmf_factors,
    nmf_est, rank_one_approx, unitOracle, nmfLoop, outer, zerosLike, matAdd, matSub,
    matAbs, split_into_chunks, chunksAux, diVec, clipRhoVec, clip01, trimLoop,
    trimStep, minBins, floorK, clampGe, lastElemD, List.range_succ, List.filter,
    Int.toNat_ofNat, List.getD, List.getElem?_cons_zero, List.getElem?_cons_succ]

/-- Trim-phase projection of `baseline_selection`: identical
preparation and trimming loop, returning the final loop state. -/
def baseline_trim_result (oracle : Oracle) (rnd : ℕ) (cfg : Cfg) (F : Mat) :
    Except String TrimState :=
  match baselinePrep oracle rnd cfg F with
  | .error e => .error e
  | .ok none => .error "early exit"
  | .ok (some (st0, _, _)) => trimLoop oracle cfg (st0.bin_segs.length + 1) st0

/-- Number of surviving bins after the trimming loop. -/
def finalBins : Except String TrimState → Option ℕ
  | .ok st => some st.bin_segs.length
  | .error _ => none

set_option maxHeartbeats 8000000 in
/-- C4: the trimming loop guard reads the Python variable `n_bins`,
which is re-synchronised at the top of the loop body BEFORE the bin is
deleted, so at every re-evaluation of the guard it is stale by one: the
loop keeps trimming while `survivors + 1 > min_bins` and can therefore
drop to `min_bins - 1` surviving bins.  Concretely, with `bins = 20`
(so `min_bins = ceil(0.3 * 20) = 6`) and 7 initial bins whose DI score
stays above 0.1, the loop ends with 5 surviving bins, below the floor. -/
theorem trim_loop_breaks_min_bins_floor :
    finalBins (baseline_trim_result zeroOracle 0 ⟨1, 7, 1, 20, 1⟩
        [[1/100, 1/100, 1/100, 1/100, 1/100, 1/100, (1/100 : ℚ)]]) = some 5 ∧
      minBins 20 = 6 := by
  have hprep : baselinePrep zeroOracle 0 ⟨1, 7, 1, 20, 1⟩
      [[1/100, 1/100, 1/100, 1/100, 1/100, 1/100, (1/100 : ℚ)]] =
      .ok (some (⟨[[0], [1], [2], [3], [4], [5], [6]],
        [[1/100, 1/100, 1/100, 1/100, 1/100, 1/100, (1/100 : ℚ)]],
        [[0, 0, 0, 0, 0, 0, 0]], [93/100], 7⟩,
        [0], [0, 0, 0, 0, 0, 0, 0])) := by
    norm_num [baselinePrep, baselinePrep.baselineInit, get_high_coverage_idx, ncols,
      colMaxQ, matMaxQ, maxQ, selectCols, nmf_factors, rank_one_approx, zeroOracle,
      nmfLoop, outer, zerosLike, matAdd, matSub, matAbs, split_into_chunks, chunksAux,
      diVec, clipRhoVec, clip01, List.range_succ, List.filter, List.replicate]
  have hstep1 : trimStep zeroOracle ⟨1, 7, 1, 20, 1⟩
      ⟨[[0], [1], [2], [3], [4], [5], [6]],
        [[1/100, 1/100, 1/100, 1/100, 1/100, 1/100, (1/100 : ℚ)]],
        [[0, 0, 0, 0, 0, 0, 0]], [93/100], 7⟩ =
      .ok ⟨[[0], [1], [2], [3], [4], [5]],
        [[1/100, 1/100, 1/100, 1/100, 1/100, (1/100 : ℚ)]],
        [[1/100, 1/100, 1/100, 1/100, 1/100, (1/100 : ℚ)]], [50/53], 7⟩ := by
    repeat
      first
      | simp [trimStep, sumSqCols, matSub, argmaxFirst, argmaxGo, sortedUnique,
          insertUniq, shift_bins, shiftFrom, lastElemD, selectColsZ, nmf_est,
          rank_one_approx, zeroOracle, nmfLoop, outer, zerosLike, matAdd, matAbs,
          clampGe, diVec, clipRhoVec, clip01, List.eraseIdx, List.range_succ,
          List.getD, List.filter]
      | norm_num [trimStep, sumSqCols, matSub, argmaxFirst, argmaxGo, sortedUnique,
          insertUniq, shift_bins, shiftFrom, lastElemD, selectColsZ, nmf_est,
          rank_one_approx, zeroOracle, nmfLoop, outer, zerosLike, matAdd, matAbs,
          clampGe, diVec, clipRhoVec, clip01, List.eraseIdx, List.range_succ,
          List.getD, List.filter]
  have hstep2 : trimStep zeroOracle ⟨1, 7, 1, 20, 1⟩
      ⟨[[0], [1], [2], [3], [4], [5]],
        [[1/100, 1/100, 1/100, 1/100, 1/100, (1/100 : ℚ)]],
        [[1/100, 1/100, 1/100, 1/100, 1/100, (1/100 : ℚ)]], [50/53], 7⟩ =
      .ok ⟨[[0], [1], [2], [3], [4]],
        [[1/100, 1/100, 1/100, 1/100, (1/100 : ℚ)]],
        [[1/100, 1/100, 1/100, 1/100, (1/100 : ℚ)]], [20/21], 6⟩ := by
    repeat
      first
      | simp [trimStep, sumSqCols, matSub, argmaxFirst, argmaxGo, sortedUnique,
          insertUniq, shift_bins, shiftFrom, lastElemD, selectColsZ, nmf_est,
          rank_one_approx, zeroOracle, nmfLoop, outer, zerosLike, matAdd, matAbs,
          clampGe, diVec, clipRhoVec, clip01, List.eraseIdx, List.range_succ,
          List.getD, List.filter]
      | norm_num [trimStep, sumSqCols, matSub, argmaxFirst, argmaxGo, sortedUnique,
          insertUniq, shift_bins, shiftFrom, lastElemD, selectColsZ, nmf_est,
          rank_one_approx, zeroOracle, nmfLoop, outer, zerosLike, matAdd, matAbs,
          clampGe, diVec, clipRhoVec, clip01, List.eraseIdx, List.range_succ,
          List.getD, List.filter]
  constructor
  · norm_num [baseline_trim_result, hprep, finalBins, trimLoop, hstep1, hstep2,
      minBins, maxQ]
  · decide

/-- Contiguous partition of `[0, m*k)` into `m` equal bins of size `k`
(bin contents are Python ints, hence `ℤ`). -/
def binPartition (m k : ℕ) : List (List ℤ) :=
  (List.range m).map (fun i => (List.range k).map (fun j => ((i * k + j : ℕ) : ℤ)))

/-- Deleting index `d` from a map over `List.range m`. -/
theorem eraseIdx_map_range {α : Type} :
    ∀ (d m : ℕ) (f : ℕ → α), d < m →
      ((List.range m).map f).eraseIdx d
        = (List.range (m - 1)).map (fun i => if i < d then f i else f (i + 1)) := by
  intro d
  induction d with
  | zero =>
    intro m f hm
    cases m with
    | zero => omega
    | succ m' =>
      rw [List.range_succ_eq_map]
      simp [List.map_map, Function.comp_def]
  | succ d ih =>
    intro m f hm
    cases m with
    | zero => omega
    | succ m' =>
      rw [List.range_succ_eq_map]
      simp only [List.map_cons, List.map_map, List.eraseIdx_cons_succ]
      rw [ih m' (f ∘ Nat.succ) (by omega)]
      obtain ⟨m'', rfl⟩ : ∃ m'', m' = m'' + 1 := ⟨m' - 1, by omega⟩
      rw [show m'' + 1 + 1 - 1 = m'' + 1 from rfl,
        show m'' + 1 - 1 = m'' from rfl, List.range_succ_eq_map]
      simp only [List.map_cons, List.map_map, List.cons.injEq]
      refine ⟨by rw [if_pos (by omega)], ?_⟩
      apply List.map_congr_left
      intro a _
      simp only [Function.comp_def, Nat.succ_eq_add_one]
      by_cases h : a < d
      · rw [if_pos h, if_pos (by omega)]
      · rw [if_neg h, if_neg (by omega)]

/-- `shiftFrom delta 0` subtracts `delta` from every bin. -/
theorem shiftFrom_zero (delta : ℤ) :
    ∀ (l : List (List ℤ)),
      shiftFrom delta 0 l = l.map (fun b => b.map (fun v => v - delta)) := by
  intro l
  induction l with
  | nil => rfl
  | cons b bs ih => rw [shiftFrom, ih]; rfl

/-- The in-place shifting loop over a map of `List.range`. -/
theorem shiftFrom_map_range (delta : ℤ) :
    ∀ (d n : ℕ) (g : ℕ → List ℤ),
      shiftFrom delta d ((List.range n).map g)
        = (List.range n).map
            (fun i => if d ≤ i then (g i).map (fun v => v - delta) else g i) := by
  intro d
  induction d with
  | zero =>
    intro n g
    rw [shiftFrom_zero, List.map_map]
    apply List.map_congr_left
    intro a _
    simp
  | succ d ih =>
    intro n g
    cases n with
    | zero => rfl
    | succ n' =>
      rw [List.range_succ_eq_map]
      simp only [List.map_cons, List.map_map]
      rw [shiftFrom, ih n' (g ∘ Nat.succ)]
      simp only [List.cons.injEq]
      refine ⟨by rw [if_neg (by omega)], ?_⟩
      apply List.map_congr_left
      intro a _
      simp only [Function.comp_def, Nat.succ_eq_add_one]
      by_cases h : d ≤ a
      · rw [if_pos h, if_pos (by omega)]
      · rw [if_neg h, if_neg (by omega)]

/-- The flattening of the equal-size partition is exactly `[0, m*k)`. -/
theorem flatten_binPartition (m k : ℕ) :
    (binPartition m k).flatten = (List.range (m * k)).map (fun t : ℕ => (t : ℤ)) := by
  induction m with
  | zero => simp [binPartition]
  | succ m ih =>
    rw [binPartition, List.range_succ, List.map_append, List.flatten_append]
    rw [show (List.range m).map (fun i => (List.range k).map (fun j => ((i * k + j : ℕ) : ℤ)))
        = binPartition m k from rfl, ih]
    rw [show (m + 1) * k = m * k + k by ring, List.range_add, List.map_append, List.map_map]
    simp only [List.map_cons, List.map_nil, List.flatten_cons, List.flatten_nil,
      List.append_nil]
    congr 1

/-- C5 (amended): for a contiguous partition of `[0, m*k)` into `m`
equal bins of size `k`, deleting bin `d` and applying `shift_bins`
yields exactly the equal partition of `[0, (m-1)*k)` — each bin
contiguous, sorted concatenation `[0, (m-1)*k)`, no gaps, no index
twice — EXCEPT in the uncovered case of exactly two bins with the first
one dropped (`shift_bins` then returns the surviving bin unshifted). -/
theorem shift_bins_reindexes (m k d : ℕ) (hk : 0 < k) (hd : d < m)
    (hex : ¬(m = 2 ∧ d = 0)) :
    shift_bins ((binPartition m k).eraseIdx d) d = binPartition (m - 1) k ∧
      (shift_bins ((binPartition m k).eraseIdx d) d).flatten
        = (List.range ((m - 1) * k)).map (fun t : ℕ => (t : ℤ)) := by
  have hB : (binPartition m k).eraseIdx d
      = (List.range (m - 1)).map
          (fun i => if i < d then (List.range k).map (fun j => ((i * k + j : ℕ) : ℤ))
                    else (List.range k).map (fun j => (((i + 1) * k + j : ℕ) : ℤ))) := by
    rw [binPartition, eraseIdx_map_range d m _ hd]
  have hmain : shift_bins ((binPartition m k).eraseIdx d) d = binPartition (m - 1) k := by
    by_cases hlast : d = m - 1
    · have hBlast : (binPartition m k).eraseIdx d = binPartition (m - 1) k := by
        rw [hB, binPartition]
        apply List.map_congr_left
        intro a ha
        rw [if_pos (by have := List.mem_range.mp ha; omega)]
      rw [hBlast]
      unfold shift_bins
      rw [if_pos (Or.inl (by simp [binPartition, hlast]))]
    · have hd2 : d < m - 1 := by omega
      have hm3 : 3 ≤ m := by
        by_cases hm2 : m = 2
        · exact absurd ⟨hm2, by omega⟩ hex
        · omega
      have hlen : ((binPartition m k).eraseIdx d).length = m - 1 := by
        rw [hB, List.length_map, List.length_range]
      unfold shift_bins
      rw [if_neg (by rw [hlen]; push_neg; exact ⟨by omega, by omega⟩)]
      have hdelta : (if d = 0 then (((binPartition m k).eraseIdx d).getD 0 []).getD 0 0
          else (((binPartition m k).eraseIdx d).getD d []).getD 0 0
                 - lastElemD (((binPartition m k).eraseIdx d).getD (d - 1) []) 0 - 1)
          = (k : ℤ) := by
        by_cases h0 : d = 0
        · rw [if_pos h0, hB, h0, getD_map_range _ _ (by omega)]
          rw [if_neg (by omega), getD_map_range _ _ hk]
          push_cast
          ring
        · rw [if_neg h0, hB, getD_map_range _ _ (by omega), getD_map_range _ _ (by omega)]
          rw [if_neg (lt_irrefl d), if_pos (by omega), getD_map_range _ _ hk]
          unfold lastElemD
          rw [List.length_map, List.length_range, getD_map_range _ _ (by omega)]
          push_cast [Nat.cast_sub (by omega : 1 ≤ k), Nat.cast_sub (by omega : 1 ≤ d)]
          ring
      dsimp only
      rw [hdelta, hB, shiftFrom_map_range, binPartition]
      apply List.map_congr_left
      intro a ha
      have ham : a < m - 1 := List.mem_range.mp ha
      by_cases had : a < d
      · rw [if_neg (by omega), if_pos had]
      · rw [if_pos (by omega), if_neg had, List.map_map]
        apply List.map_congr_left
        intro j _
        simp only [Function.comp_def]
        push_cast
        ring
  exact ⟨hmain, by rw [hmain, flatten_binPartition]⟩

/-- Witness for the amended C5 at a concrete partition. -/
theorem shift_bins_reindexes_witness :
    shift_bins ((binPartition 4 2).eraseIdx 1) 1 = binPartition 3 2 ∧
      (shift_bins ((binPartition 4 2).eraseIdx 1) 1).flatten
        = (List.range ((4 - 1) * 2)).map (fun t : ℕ => (t : ℤ)) :=
  shift_bins_reindexes 4 2 1 (by decide) (by decide) (by decide)

/-- Counterexample to C5 as stated: with exactly two equal bins and the
first one dropped, `shift_bins` hits its `len(bins) == 1` early return
and leaves the surviving bin unshifted, so the reindexed partition is
`[[1]]`, not `[[0]]` — its concatenation is not `[0, N - droppedBinSize)`. -/
theorem shift_bins_two_bins_drop_first_unshifted :
    shift_bins ((binPartition 2 1).eraseIdx 0) 0 = [[(1 : ℤ)]] ∧
      ([[(1 : ℤ)]] : List (List ℤ)).flatten
        ≠ (List.range ((2 - 1) * 1)).map (fun t : ℕ => (t : ℤ)) := by
  constructor
  · decide
  · decide

/-- Per-sample means over ALL genes: `avg_di_score = self.rho.mean(axis=0)`. -/
def colMeans (rho : Mat) : List ℚ :=
  (List.range (ncols rho)).map (fun j => (rho.map (fun r => r.getD j 0)).sum / rho.length)

/-- Embeds `GeneNMFOA.adjust_read_counts`: rows flagged baseline-eligible
are divided elementwise by `1 - rho[g]`; all other rows are divided by
`1 - avg_di_score` where the average runs over ALL genes (the two
`np.where` index sets partition the rows, so the prior `x_adj` content
is fully overwritten). -/
def adjust_read_counts (x rho : Mat) (flags : List Bool) : Mat :=
  (List.range x.length).map (fun g =>
    if flags.getD g false then
      List.zipWith (fun xv rv => xv / (1 - rv)) (x.getD g []) (rho.getD g [])
    else
      List.zipWith (fun xv av => xv / (1 - av)) (x.getD g []) (colMeans rho))

/-- Refinement comparison definition, following the SPEC words for C6:
the per-sample mean DI across the baseline-ELIGIBLE genes only. -/
def meanRhoAcrossEligible (rho : Mat) (flags : List Bool) (j : ℕ) : ℚ :=
  let sel := ((List.zip flags rho).filter (fun p => p.1)).map (fun p => p.2)
  (sel.map (fun r => r.getD j 0)).sum / sel.length

/-- Reading an in-range entry of a `zipWith`. -/
theorem getD_zipWith (f : ℚ → ℚ → ℚ) :
    ∀ (l1 l2 : List ℚ) (i : ℕ), i < l1.length → i < l2.length →
      (List.zipWith f l1 l2).getD i 0 = f (l1.getD i 0) (l2.getD i 0) := by
  intro l1
  induction l1 with
  | nil => intro l2 i h1 _; simp at h1
  | cons a l1 ih =>
    intro l2 i h1 h2
    cases l2 with
    | nil => simp at h2
    | cons b l2 =>
      cases i with
      | zero => rfl
      | succ i =>
        simp only [List.zipWith_cons_cons, List.getD_cons_succ]
        exact ih l2 i (by simpa using h1) (by simpa using h2)

/-- C6 (amended): every gene NOT flagged baseline-eligible gets
`adjustedCount = rawCount / (1 - m)` where `m` is the per-sample mean DI
taken across ALL genes (not only the eligible ones), the same divisor
for all samples of the gene. -/
theorem adjust_read_counts_non_eligible (x rho : Mat) (flags : List Bool) (g j : ℕ)
    (hg : g < x.length) (hflag : flags.getD g false = false)
    (hj1 : j < (x.getD g []).length) (hj2 : j < ncols rho) :
    ((adjust_read_counts x rho flags).getD g []).getD j 0
      = (x.getD g []).getD j 0
          / (1 - (rho.map (fun r => r.getD j 0)).sum / rho.length) := by
  unfold adjust_read_counts
  rw [getD_map_range _ _ hg, hflag]
  simp only [Bool.false_eq_true, if_false]
  have hlen : (colMeans rho).length = ncols rho := by
    simp [colMeans]
  rw [getD_zipWith _ _ _ _ hj1 (by rw [hlen]; exact hj2)]
  unfold colMeans
  rw [getD_map_range _ _ hj2]

/-- Witness for the amended C6 at a concrete non-eligible gene. -/
theorem adjust_read_counts_non_eligible_witness :
    ((adjust_read_counts [[1], [1]] [[0], [1/2]] [true, false]).getD 1 []).getD 0 0
      = (([[1], [1]] : Mat).getD 1 []).getD 0 0
          / (1 - (([[0], [(1/2 : ℚ)]] : Mat).map (fun r => r.getD 0 0)).sum
              / ([[0], [(1/2 : ℚ)]] : Mat).length) :=
  adjust_read_counts_non_eligible [[1], [1]] [[0], [1/2]] [true, false] 1 0
    (by decide) (by decide) (by decide) (by decide)

/-- Counterexample to C6 as stated: with gene 0 eligible (DI 0) and
gene 1 not eligible (DI 1/2), the code divides gene 1 by
`1 - mean(all rho) = 3/4`, giving `4/3`; the claimed divisor
`1 - meanRhoAcrossEligibleGenes = 1` would give `1`. -/
theorem adjust_read_counts_not_eligible_mean :
    adjust_read_counts [[1], [1]] [[0], [1/2]] [true, false] = [[1], [4/3]] ∧
      (1 : ℚ) / (1 - meanRhoAcrossEligible [[0], [1/2]] [true, false] 0) = 1 ∧
      (4/3 : ℚ) ≠ 1 := by
  refine ⟨?_, ?_, by norm_num⟩
  · norm_num [adjust_read_counts, colMeans, ncols, List.range_succ, List.getD]
  · norm_num [meanRhoAcrossEligible, List.getD]

/-- Embeds `GeneNMFOA.run_nmf_serial` (with `factors=False`, as used by
`transform`). -/
def run_nmf_serial (oracle : Oracle) (cfg : Cfg) (x : List Mat) : List Mat :=
  x.map (nmf_est oracle cfg)

/-- Embeds `GeneNMFOA.par_apply_nmf`.  joblib Parallel over
`map(delayed(...), chunks)` returns one result per chunk in submission
order; the worker pool is modelled as an order-preserving map over the
chunks, followed by the source's flatten. -/
def par_apply_nmf (oracle : Oracle) (cfg : Cfg) (mem_splits : ℕ) (dat : List Mat) :
    List Mat :=
  ((split_into_chunks dat mem_splits).map (run_nmf_serial oracle cfg)).flatten

/-- Embeds `GeneNMFOA.run_baseline_selection_serial`. -/
def run_baseline_selection_serial (oracle : Oracle) (rnd : ℕ) (cfg : Cfg) (x : List Mat) :
    List (Except String (Mat × Bool)) :=
  x.map (baseline_selection oracle rnd cfg)

/-- Embeds the dispatch-and-flatten part of
`GeneNMFOA.par_apply_baseline_selection` (the per-gene result list from
which the estimates and the `ranFlag` indicators are then projected). -/
def par_apply_baseline_selection (oracle : Oracle) (rnd : ℕ) (cfg : Cfg) (mem_splits : ℕ)
    (dat : List Mat) : List (Except String (Mat × Bool)) :=
  ((split_into_chunks dat mem_splits).map
    (run_baseline_selection_serial oracle rnd cfg)).flatten

/-- Flattening the chunks gives back the original list. -/
theorem chunksAux_flatten {α : Type} (c : ℕ) (hc : 0 < c) :
    ∀ (fuel : ℕ) (xs : List α), xs.length ≤ fuel → (chunksAux c fuel xs).flatten = xs := by
  intro fuel
  induction fuel with
  | zero =>
    intro xs h
    cases xs with
    | nil => rfl
    | cons y ys => simp at h
  | succ fuel ih =>
    intro xs h
    cases xs with
    | nil => rfl
    | cons y ys =>
      rw [chunksAux, List.flatten_cons, ih ((y :: ys).drop c) (by
        rw [List.length_drop]
        simp only [List.length_cons] at h ⊢
        omega)]
      exact List.take_append_drop c (y :: ys)

/-- `split_into_chunks` with any chunk count `≥ 1` partitions the list. -/
theorem split_into_chunks_flatten {α : Type} (xs : List α) (n : ℕ) (hn : 1 ≤ n) :
    (split_into_chunks xs n).flatten = xs := by
  unfold split_into_chunks
  cases xs with
  | nil => rfl
  | cons y ys =>
    apply chunksAux_flatten
    · exact Nat.div_pos (by simp only [List.length_cons]; omega) (by omega)
    · exact le_refl _

/-- Flattening a chunked map equals mapping the flattened list. -/
theorem flatten_map_map {α β : Type} (f : α → β) :
    ∀ (L : List (List α)), (L.map (List.map f)).flatten = L.flatten.map f := by
  intro L
  induction L with
  | nil => rfl
  | cons c L ih =>
    rw [List.map_cons, List.flatten_cons, List.flatten_cons, List.map_append, ih]

/-- C7: parallel/serial equivalence with order preservation.  For every
gene list and every chunk count `≥ 1`, the chunked application of `nmf`
and of `baseline_selection` equals the serial application, elementwise
and in the original gene order. -/
theorem par_apply_equals_serial (oracle : Oracle) (rnd : ℕ) (cfg : Cfg)
    (mem_splits : ℕ) (dat : List Mat) (hn : 1 ≤ mem_splits) :
    par_apply_nmf oracle cfg mem_splits dat = run_nmf_serial oracle cfg dat ∧
      par_apply_baseline_selection oracle rnd cfg mem_splits dat
        = run_baseline_selection_serial oracle rnd cfg dat := by
  constructor
  · unfold par_apply_nmf run_nmf_serial
    rw [flatten_map_map, split_into_chunks_flatten _ _ hn]
  · unfold par_apply_baseline_selection run_baseline_selection_serial
    rw [flatten_map_map, split_into_chunks_flatten _ _ hn]

/-- Witness for C7 at a concrete gene list and chunk count. -/
theorem par_apply_equals_serial_witness :
    par_apply_nmf unitOracle ⟨1, 1, 1, 20, 1⟩ 1 [[[(1 : ℚ)], [0]]]
        = run_nmf_serial unitOracle ⟨1, 1, 1, 20, 1⟩ [[[(1 : ℚ)], [0]]] ∧
      par_apply_baseline_selection unitOracle 0 ⟨1, 1, 1, 20, 1⟩ 1 [[[(1 : ℚ)], [0]]]
        = run_baseline_selection_serial unitOracle 0 ⟨1, 1, 1, 20, 1⟩ [[[(1 : ℚ)], [0]]] :=
  par_apply_equals_serial unitOracle 0 ⟨1, 1, 1, 20, 1⟩ 1 [[[(1 : ℚ)], [0]]] (by decide)

/-- C8: at the end of the flooring step of `baseline_selection` (when it
completes, i.e. at least one K entry is `≥ 1e-5`, otherwise `np.min` of
an empty selection raises), every entry of K is at least `1e-5`, each
entry below `1e-5` having been replaced by the smallest entry `≥ 1e-5`;
in particular no entry is zero, so the subsequent elementwise division
of `F` by `K` never divides by zero. -/
theorem floorK_entries_at_least_eps (K Kf : List ℚ) (h : floorK K = some Kf) :
    ∀ v ∈ Kf, 1 / 100000 ≤ v ∧ v ≠ 0 := by
  simp only [floorK] at h
  cases hm : (K.filter (fun v => ¬ v < 1 / 100000)).min? with
  | none => rw [hm] at h; exact absurd h (by simp)
  | some m =>
    rw [hm] at h
    simp only [Option.some.injEq] at h
    have hmem : m ∈ K.filter (fun v => ¬ v < 1 / 100000) :=
      List.min?_mem (fun a b => min_choice a b) hm
    have hme : ¬ m < 1 / 100000 := by
      have := (List.mem_filter.mp hmem).2
      simpa using this
    intro v hv
    rw [← h] at hv
    rcases List.mem_map.mp hv with ⟨w, _, hw⟩
    have hbound : 1 / 100000 ≤ v := by
      rw [← hw]
      by_cases hcase : w < 1 / 100000
      · rw [if_pos hcase]; exact le_of_not_lt hme
      · rw [if_neg hcase]; exact le_of_not_lt hcase
    refine ⟨hbound, fun h0 => ?_⟩
    rw [h0] at hbound
    norm_num at hbound

/-- Witness for C8 at a concrete flooring run and entry. -/
theorem floorK_entries_at_least_eps_witness :
    1 / 100000 ≤ (1 : ℚ) ∧ (1 : ℚ) ≠ 0 :=
  floorK_entries_at_least_eps [0, 1] [1, 1]
    (by norm_num [floorK, List.filter, List.min?]) 1 (by simp)

/-- Model of a numpy array handed to `fit`: shape tuple plus entry
reader (the validations the claims concern depend only on the shape). -/
structure NpArr where
  shape : List ℕ
  entry : ℕ → ℕ → ℚ

/-- Object state of a `GeneNMFOA` instance; the defaults model the
`None`/empty initialisations of `__init__`, in particular
`fitted = False` and `transformed = False`. -/
structure OAState where
  n_genes : ℕ := 0
  genes : List String := []
  p : ℕ := 0
  cov_mats : List NpArr := []
  x : Mat := []
  x_adj : Mat := []
  use_baseline_selection : List Bool := []
  Lis : List ℕ := []
  cov_sums : Mat := []
  mem_splits : ℕ := 0
  fitted : Bool := false
  transformed : Bool := false

/-- Fresh object as produced by `__init__`. -/
def initState : OAState := {}

/-- Per-gene per-sample coverage sums (`self.cov_sums`). -/
def covSums (cov_mats : List NpArr) : Mat :=
  cov_mats.map (fun a =>
    (List.range (a.shape.getD 0 0)).map (fun i =>
      ((List.range (a.shape.getD 1 0)).map (fun j => a.entry i j)).sum))

/-- Worker-chunk count (float64 arrays use 8 bytes per entry;
`max(ceil(totalBytes / 1e8), n_jobs)`). -/
def memSplits (cov_mats : List NpArr) (n_jobs : ℕ) : ℕ :=
  let ms := ((cov_mats.map (fun a => 8 * a.shape.getD 0 0 * a.shape.getD 1 0)).sum
    + 99999999) / 100000000
  if ms > n_jobs then ms else n_jobs

/-- Embeds `GeneNMFOA.fit` as a state transformer on a fresh object.
Field assignments happen in source order; a raised exception returns the
state mutated so far together with the error (the Python object keeps
those mutations).  An empty coverage dict raises `StopIteration` at
`next(iter(...))`; a coverage array with fewer than 2 dimensions raises
`IndexError` at the `x.shape[1]` read while building `Lis`, BEFORE the
2-d validation (which therefore only catches arrays of 3+ dimensions). -/
def fit (cfg : Cfg) (n_jobs : ℕ) (cov_dat : List (String × NpArr)) (reads_dat : Mat) :
    OAState × Option String :=
  let n_genes := cov_dat.length
  let genes := cov_dat.map Prod.fst
  match cov_dat with
  | [] => ({ initState with n_genes := n_genes, genes := genes }, some "StopIteration")
  | g0 :: _ =>
    let p := g0.2.shape.getD 0 0
    let cov_mats := cov_dat.map Prod.snd
    let s1 : OAState := { initState with
      n_genes := n_genes, genes := genes, p := p, cov_mats := cov_mats,
      x := reads_dat, x_adj := reads_dat,
      use_baseline_selection := List.replicate n_genes true }
    if cov_mats.any (fun a => a.shape.length < 2) then
      (s1, some "IndexError: tuple index out of range")
    else
      let s2 := { s1 with Lis := cov_mats.map (fun a => a.shape.getD 1 0) }
      if reads_dat.length ≠ n_genes then
        (s2, some "Number of genes in read count matrix not equal to number of coverage matrices!")
      else if ¬ cov_mats.all (fun a => a.shape.length = 2) then
        (s2, some "Not all coverage matrices are 2-d arrays!")
      else if cfg.downsample_rate > 1 ∧ ¬ (s2.Lis.min?.getD 0 ≥ cfg.downsample_rate) then
        (s2, some "downsample_rate is too large; take-every size > at least one gene.")
      else
        ({ s2 with
            cov_sums := covSums cov_mats,
            mem_splits := memSplits cov_mats n_jobs,
            fitted := true }, none)

/-- Embeds the guard at the top of `GeneNMFOA.transform`. -/
def transform_check (s : OAState) : Except String Unit :=
  if s.fitted then .ok () else .error "self.fit not yet executed."

/-- C10: whenever `fit` raises one of its validation errors (gene-count
mismatch, non-2-d coverage array, oversized downsample stride), the
`fitted` flag stays `False` and a subsequent `transform` call raises,
even though `fit` has already assigned the gene list, the coverage
matrices and the read-count copies before running the validations. -/
theorem fit_failure_leaves_unfitted (cfg : Cfg) (n_jobs : ℕ)
    (cov_dat : List (String × NpArr)) (reads_dat : Mat) (e : String)
    (he : (fit cfg n_jobs cov_dat reads_dat).2 = some e)
    (hv : e = "Number of genes in read count matrix not equal to number of coverage matrices!"
        ∨ e = "Not all coverage matrices are 2-d arrays!"
        ∨ e = "downsample_rate is too large; take-every size > at least one gene.") :
    (fit cfg n_jobs cov_dat reads_dat).1.fitted = false ∧
      transform_check (fit cfg n_jobs cov_dat reads_dat).1
        = .error "self.fit not yet executed." ∧
      (fit cfg n_jobs cov_dat reads_dat).1.genes = cov_dat.map Prod.fst ∧
      (fit cfg n_jobs cov_dat reads_dat).1.cov_mats = cov_dat.map Prod.snd ∧
      (fit cfg n_jobs cov_dat reads_dat).1.x = reads_dat ∧
      (fit cfg n_jobs cov_dat reads_dat).1.x_adj = reads_dat := by
  unfold fit at he ⊢
  cases cov_dat with
  | nil =>
    simp only [Option.some.injEq] at he
    rw [← he] at hv
    rcases hv with h | h | h <;> simp at h
  | cons g0 rest =>
    dsimp only at he ⊢
    split_ifs at he ⊢ with h1 h2 h3 h4 <;>
      first
        | exact ⟨rfl, rfl, rfl, rfl, rfl, rfl⟩
        | (simp only [Option.some.injEq] at he
           rw [← he] at hv
           rcases hv with h | h | h <;> simp at h)
        | simp at he

/-- Witness for C10 at a concrete failing `fit` (read-count matrix with
0 rows against 1 coverage matrix). -/
theorem fit_failure_leaves_unfitted_witness :
    (fit ⟨1, 50, 100, 20, 10⟩ 1 [("g", ⟨[1, 3], fun _ _ => 0⟩)] []).1.fitted = false ∧
      transform_check (fit ⟨1, 50, 100, 20, 10⟩ 1 [("g", ⟨[1, 3], fun _ _ => 0⟩)] []).1
        = .error "self.fit not yet executed." ∧
      (fit ⟨1, 50, 100, 20, 10⟩ 1 [("g", ⟨[1, 3], fun _ _ => 0⟩)] []).1.genes
        = [("g", (⟨[1, 3], fun _ _ => 0⟩ : NpArr))].map Prod.fst ∧
      (fit ⟨1, 50, 100, 20, 10⟩ 1 [("g", ⟨[1, 3], fun _ _ => 0⟩)] []).1.cov_mats
        = [("g", (⟨[1, 3], fun _ _ => 0⟩ : NpArr))].map Prod.snd ∧
      (fit ⟨1, 50, 100, 20, 10⟩ 1 [("g", ⟨[1, 3], fun _ _ => 0⟩)] []).1.x = ([] : Mat) ∧
      (fit ⟨1, 50, 100, 20, 10⟩ 1 [("g", ⟨[1, 3], fun _ _ => 0⟩)] []).1.x_adj = ([] : Mat) :=
  fit_failure_leaves_unfitted ⟨1, 50, 100, 20, 10⟩ 1
    [("g", ⟨[1, 3], fun _ _ => 0⟩)] []
    "Number of genes in read count matrix not equal to number of coverage matrices!"
    (by rfl) (Or.inl rfl)

/-- C9: the eager stride validation in `fit` is off by one against both
the claim and the later runtime check.  With `downsample_rate = 5` and a
single gene of transcript length 5, the stride equals the gene length
(so the claim requires an eager error), yet `fit` returns no error
because its check is `min(Lis) >= downsample_rate`; the error instead
surfaces later, inside `downsample_2d` during the parallel phase, whose
check is `downsample_rate >= Li` — matching `fit`'s own comment
"Check that downsample rate < length(gene) for all genes". -/
theorem fit_stride_check_off_by_one :
    (fit ⟨5, 50, 100, 20, 10⟩ 1 [("g", ⟨[1, 5], fun _ _ => 0⟩)] [[0]]).2 = none ∧
      downsample_2d 0 5 [[0, 0, 0, 0, 0]] false
        = .error "Cannot downsample at a rate < 1 / length(gene)" := by
  exact ⟨rfl, rfl⟩
